import Mathlib

/-!
Verification of the messaging/conversation layer of the therapy-marketplace
app (the `MessagingContext` module).  The TypeScript source is shallowly
embedded: JS strings become `String`, timestamps (ISO strings compared via
`new Date(...)`) become `Nat`, the insertion-ordered JS `Map` becomes an
association list, and the asynchronous store is a function parameter whose
result is an `Except`.  All definitions are executable.
-/

/-- Denormalized user summary (`users` row join: id, role; name/photo are
display-only and never consulted by the modelled logic, so they are omitted). -/
structure UserSummary where
  id : String
  role : String
  deriving DecidableEq

/-- A row of the `messages` table together with its joined sender/receiver
summaries.  `message_type`, `is_system_message`, `edited_at` and `attachments`
are never consulted by the modelled logic and are omitted. -/
structure Message where
  id : String
  sender_id : String
  receiver_id : String
  message : String
  read : Bool
  created_at : Nat
  sender : UserSummary
  receiver : UserSummary
  deriving DecidableEq

/-- The `Conversation` objects built by the context.  `last_message` is
optional (a provisional conversation created by `createConversation` has
none); `messages` is the internal accumulation array pushed onto the map
values by `loadConversations` (absent, i.e. empty, on provisional ones). -/
structure Conversation where
  id : String
  therapist_id : String
  client_id : String
  is_active : Bool
  last_message_at : Nat
  last_message : Option Message
  unread_count : Nat
  messages : List Message
  deriving DecidableEq

/-- Errors of the remote store (`supabase` query errors). -/
inductive StoreError where
  | network (code : Nat)
  deriving DecidableEq

/-- The error taxonomy.  The first three are the strings actually thrown by
the source; the next three are the spec's error names, declared so the
claims about them can be stated (no code path produces them). -/
inductive MessagingError where
  | notAuthenticated
  | invalidConversationId
  | couldNotFindOtherUser
  | invalidParticipants
  | invalidMessage
  | retrievalFailed
  | store (e : StoreError)
  deriving DecidableEq

/-- Equality of store-call results is decidable (needed to evaluate the
model on concrete inputs). -/
instance {ε α : Type} [DecidableEq ε] [DecidableEq α] :
    DecidableEq (Except ε α) := fun x y =>
  match x, y with
  | .ok a, .ok b =>
      if h : a = b then .isTrue (congrArg Except.ok h)
      else .isFalse fun he => h (Except.ok.inj he)
  | .error e, .error e' =>
      if h : e = e' then .isTrue (congrArg Except.error h)
      else .isFalse fun he => h (Except.error.inj he)
  | .ok _, .error _ => .isFalse fun he => Except.noConfusion he
  | .error _, .ok _ => .isFalse fun he => Except.noConfusion he

/-! ## Identity derivation

`[a, b].sort().join('_')` with the `conv_` prefix.  JS `Array.sort` without a
comparator orders strings lexicographically by numeric character code;
`charListLe` is that comparison on the character lists. -/

/-- Lexicographic `≤` on character lists by numeric character code
(the JS default string comparison). -/
def charListLe : List Char → List Char → Bool
  | [], _ => true
  | _ :: _, [] => false
  | a :: as, b :: bs =>
    if a < b then true
    else if b < a then false
    else charListLe as bs

/-- JS string comparison `a <= b`. -/
def strLe (a b : String) : Bool :=
  charListLe a.data b.data

/-- `[a, b].sort()` for a two-element array of strings. -/
def sortPair (a b : String) : List String :=
  if strLe a b then [a, b] else [b, a]

/-- JS `Array.prototype.join('_')`. -/
def joinUnderscore : List String → String
  | [] => ""
  | [s] => s
  | s :: rest => s ++ "_" ++ joinUnderscore rest

/-- The canonical conversation id:
`` `conv_${[a, b].sort().join('_')}` ``, the derivation shared by
`loadConversations`, the realtime INSERT handler and `createConversation`. -/
def deriveConversationId (a b : String) : String :=
  "conv_" ++ joinUnderscore (sortPair a b)

/-! ## The aggregation key and the realtime handler -/

/-- `message.sender_id === userProfile.id ? message.receiver : message.sender`. -/
def otherUser (up : UserSummary) (m : Message) : UserSummary :=
  if m.sender_id = up.id then m.receiver else m.sender

/-- The grouping key of `loadConversations`:
`[userProfile.id, otherUser.id].sort().join('_')`. -/
def convKey (up : UserSummary) (m : Message) : String :=
  joinUnderscore (sortPair up.id (otherUser up m).id)

/-- The conversation id the realtime INSERT handler expects for a payload:
`` `conv_${[userProfile.id, newMessage.sender_id].sort().join('_')}` ``. -/
def realtimeExpectedId (up : UserSummary) (newMessage : Message) : String :=
  "conv_" ++ joinUnderscore (sortPair up.id newMessage.sender_id)

/-- The INSERT branch of `setupRealTimeSubscriptions`: if the active
conversation matches the expected id, append the payload to `messages`
(`setMessages(prev => [...prev, newMessage])`); the
`loadConversations()` refresh it also triggers is modelled separately. -/
def handleInsertEvent (up : UserSummary) (activeConversation : Option Conversation)
    (messages : List Message) (newMessage : Message) : List Message :=
  match activeConversation with
  | some ac =>
      if ac.id = realtimeExpectedId up newMessage then messages ++ [newMessage]
      else messages
  | none => messages

/-! ## sendMessage -/

/-- JS `String.prototype.trim`: strip whitespace from both ends. -/
def jsTrim (s : String) : String :=
  ⟨((s.data.dropWhile Char.isWhitespace).reverse.dropWhile Char.isWhitespace).reverse⟩

/-- The row handed to `supabase.from('messages').insert({...})`. -/
structure InsertRow where
  sender_id : String
  receiver_id : String
  message : String
  deriving DecidableEq

/-- Observable outcome of one `sendMessage` call.  The TS function returns
`void` and never rejects (its `catch` only shows an alert), so the outcome is
total: the row sent to the store (if any), the local message list afterwards,
and whether the failure alert was shown. -/
structure SendOutcome where
  persisted : Option InsertRow
  messages : List Message
  alerted : Bool
  deriving DecidableEq

/-- `sendMessage(conversationId, message, messageType)`.  The store's insert
is the function argument `insertOutcome` (returning the row the database
echoes back via `.select().single()`). -/
def sendMessage (userProfile : Option UserSummary)
    (activeConversation : Option Conversation)
    (insertOutcome : InsertRow → Except StoreError Message)
    (messages : List Message)
    (conversationId : String) (message : String) (messageType : String) :
    SendOutcome :=
  match userProfile, activeConversation with
  | some up, some ac =>
      let receiverId :=
        if up.id = ac.therapist_id then ac.client_id else ac.therapist_id
      let row : InsertRow :=
        { sender_id := up.id, receiver_id := receiverId, message := jsTrim message }
      match insertOutcome row with
      | .ok data => { persisted := some row, messages := messages ++ [data], alerted := false }
      | .error _ => { persisted := none, messages := messages, alerted := true }
  | _, _ => { persisted := none, messages := messages, alerted := false }

/-! ## markAsRead -/

/-- `markAsRead(messageId)`: update the store row (`updateOk` is the outcome
of that query), then patch the matching local message.  A store error is
caught and logged, so the call always resolves (`Except.ok`); on error the
local patch is skipped. -/
def markAsRead (updateOk : Bool) (messageId : String) (messages : List Message) :
    Except MessagingError (List Message) :=
  if updateOk then
    .ok (messages.map fun msg =>
      if msg.id = messageId then { msg with read := true } else msg)
  else
    .ok messages

/-! ## createConversation -/

/-- `createConversation(otherUserId)`.  `fetchUser` is the
`users` table lookup; `conversations` is the current list state; `now` is
`new Date().toISOString()`.  Returns the conversation id together with the
updated conversation list (`setConversations(prev => [newConversation, ...prev])`). -/
def createConversation (userProfile : Option UserSummary)
    (fetchUser : String → Except StoreError UserSummary)
    (conversations : List Conversation) (now : Nat) (otherUserId : String) :
    Except MessagingError (String × List Conversation) :=
  match userProfile with
  | none => .error .notAuthenticated
  | some up =>
      let conversationKey := joinUnderscore (sortPair up.id otherUserId)
      let conversationId := "conv_" ++ conversationKey
      match fetchUser otherUserId with
      | .error e => .error (.store e)
      | .ok otherUserData =>
          if conversations.any fun c => c.id = conversationId then
            .ok (conversationId, conversations)
          else
            .ok (conversationId,
              { id := conversationId
                therapist_id := if otherUserData.role = "therapist" then otherUserId else up.id
                client_id := if otherUserData.role = "client" then otherUserId else up.id
                is_active := true
                last_message_at := now
                last_message := none
                unread_count := 0
                messages := [] } :: conversations)

/-! ## loadMessages: decomposing a conversation id -/

/-- Remove the first occurrence of `pat` from a character list
(JS `String.prototype.replace` with a string pattern and empty replacement). -/
def replaceFirstAux (pat : List Char) : List Char → List Char
  | [] => []
  | c :: rest =>
      if pat.isPrefixOf (c :: rest) then (c :: rest).drop pat.length
      else c :: replaceFirstAux pat rest

/-- JS `s.replace(pat, '')`. -/
def jsReplaceFirst (s pat : String) : String :=
  ⟨replaceFirstAux pat.data s.data⟩

/-- Split a character list on `'_'`: the first component is the run before
the first separator, the second the remaining fields. -/
def splitUnderscoreAux : List Char → List Char × List (List Char)
  | [] => ([], [])
  | c :: rest =>
      let r := splitUnderscoreAux rest
      if c = '_' then ([], r.1 :: r.2) else (c :: r.1, r.2)

/-- JS `s.split('_')`. -/
def jsSplitUnderscore (s : String) : List String :=
  let r := splitUnderscoreAux s.data
  (r.1 :: r.2).map String.mk

/-- The decomposition `loadMessages` performs on its argument:
`conversationId.replace('conv_', '').split('_')`, failing with
`'Invalid conversation ID'` unless exactly two ids result.  (The remainder of
`loadMessages` — the fetch and the read-draining — does not bear on the
decomposition claims.) -/
def loadMessagesUserIds (conversationId : String) :
    Except MessagingError (List String) :=
  let conversationKey := jsReplaceFirst conversationId "conv_"
  let userIds := jsSplitUnderscore conversationKey
  if userIds.length = 2 then .ok userIds else .error .invalidConversationId

/-! ## loadConversations: grouping into the insertion-ordered map -/

/-- The insertion-ordered `conversationsMap` (a JS `Map`). -/
abbrev ConvMap := List (String × Conversation)

/-- `conversationsMap.get(key)` (first, and with unique keys only, entry). -/
def mapFind (k : String) : ConvMap → Option Conversation
  | [] => none
  | (k', c) :: rest => if k' = k then some c else mapFind k rest

/-- In-place mutation of the entry at `k` (the first matching one). -/
def mapModify (k : String) (f : Conversation → Conversation) : ConvMap → ConvMap
  | [] => []
  | (k', c) :: rest =>
      if k' = k then (k', f c) :: rest else (k', c) :: mapModify k f rest

/-- The fresh map value `conversationsMap.set(key, {...})` creates: therapist
and client slots are filled by role tag, `last_message`/`last_message_at`
seed from the current message, unread count starts at 0. -/
def freshConversation (up : UserSummary) (m : Message) (k : String) : Conversation :=
  { id := "conv_" ++ k
    therapist_id := if (otherUser up m).role = "therapist" then (otherUser up m).id else up.id
    client_id := if (otherUser up m).role = "client" then (otherUser up m).id else up.id
    is_active := true
    last_message_at := m.created_at
    last_message := some m
    unread_count := 0
    messages := [] }

/-- `conversation.messages.push(message)`. -/
def pushMessage (m : Message) (c : Conversation) : Conversation :=
  { c with messages := c.messages ++ [m] }

/-- `if (new Date(message.created_at) > new Date(conversation.last_message_at))`
then update `last_message_at`/`last_message`. -/
def bumpLast (m : Message) (c : Conversation) : Conversation :=
  if c.last_message_at < m.created_at then
    { c with last_message_at := m.created_at, last_message := some m }
  else c

/-- `if (message.receiver_id === userProfile.id && !message.read)
conversation.unread_count++`. -/
def bumpUnread (up : UserSummary) (m : Message) (c : Conversation) : Conversation :=
  if m.receiver_id = up.id ∧ m.read = false then
    { c with unread_count := c.unread_count + 1 }
  else c

/-- The three mutations the loop body applies to the fetched entry. -/
def applyMessage (up : UserSummary) (m : Message) (c : Conversation) : Conversation :=
  bumpUnread up m (bumpLast m (pushMessage m c))

/-- One iteration of the `forEach` loop of `loadConversations`: create the
entry if the key is absent, then mutate it. -/
def stepMessage (up : UserSummary) (acc : ConvMap) (m : Message) : ConvMap :=
  let k := convKey up m
  let acc1 :=
    if mapFind k acc = none then acc ++ [(k, freshConversation up m k)] else acc
  mapModify k (applyMessage up m) acc1

/-- The whole grouping loop over the fetched messages. -/
def aggregateConversations (up : UserSummary) (msgs : List Message) : ConvMap :=
  msgs.foldl (stepMessage up) []

/-- Stable descending insertion by `last_message_at`.  JS `Array.sort` with
comparator `(a, b) => b.last_message_at - a.last_message_at` is a stable sort
for this total preorder, and every stable sort of a total preorder yields the
same list, so insertion sort models it exactly. -/
def insertDesc (c : Conversation) : List Conversation → List Conversation
  | [] => [c]
  | d :: ds =>
      if d.last_message_at < c.last_message_at then c :: d :: ds
      else d :: insertDesc c ds

/-- `Array.from(conversationsMap.values()).sort(...)`'s sort. -/
def sortByLastDesc : List Conversation → List Conversation
  | [] => []
  | c :: cs => insertDesc c (sortByLastDesc cs)

/-- The successful path of `loadConversations`: group, take the map's values,
sort by `last_message_at` descending. -/
def loadConversationsPure (up : UserSummary) (msgs : List Message) :
    List Conversation :=
  sortByLastDesc ((aggregateConversations up msgs).map Prod.snd)

/-- `loadConversations()`.  `fetchResult` is the outcome of the single store
query; on error the `catch` only logs, so the call resolves (`Except.ok`)
with the previous conversation list untouched; there is no retry. -/
def loadConversations (userProfile : Option UserSummary)
    (fetchResult : Except StoreError (List Message))
    (prevConversations : List Conversation) :
    Except MessagingError (List Conversation) :=
  match userProfile with
  | none => .ok prevConversations
  | some up =>
      match fetchResult with
      | .error _ => .ok prevConversations
      | .ok messagesData => .ok (loadConversationsPure up messagesData)

/-- Folding one group of messages (all sharing a key) through the map entry:
the entry is created from the first message and mutated by each. -/
def groupStep (up : UserSummary) (k : String) (oc : Option Conversation)
    (m : Message) : Option Conversation :=
  some (applyMessage up m (oc.getD (freshConversation up m k)))

/-- What the loop establishes for the entry at key `k` after it has seen the
messages `g` of that key: the id is the derived one, the unread count counts
the unread messages addressed to the user among `g`, and
`last_message`/`last_message_at` is a maximal-timestamp member of `g`. -/
def EntryInv (up : UserSummary) (k : String) (g : List Message)
    (c : Conversation) : Prop :=
  c.id = "conv_" ++ k ∧
  c.unread_count = g.countP (fun m => decide (m.receiver_id = up.id ∧ m.read = false)) ∧
  (∃ lm, c.last_message = some lm ∧ lm ∈ g ∧ c.last_message_at = lm.created_at) ∧
  (∀ m ∈ g, m.created_at ≤ c.last_message_at)

/-! # Theorems -/

/-! ## The string order underlying the pair sort -/

theorem charListLe_refl (l : List Char) : charListLe l l = true := by
  induction l with
  | nil => rfl
  | cons a as ih => simp [charListLe, ih]

theorem charListLe_total (as bs : List Char) :
    charListLe as bs = true ∨ charListLe bs as = true := by
  induction as generalizing bs with
  | nil => left; rfl
  | cons a as ih =>
    cases bs with
    | nil => right; rfl
    | cons b bs =>
      rcases lt_trichotomy a b with h | h | h
      · left; simp [charListLe, h]
      · subst h
        rcases ih bs with h' | h' <;> [left; right] <;>
          simp [charListLe, h', lt_irrefl]
      · right; simp [charListLe, h]

theorem charListLe_antisymm (as bs : List Char)
    (h1 : charListLe as bs = true) (h2 : charListLe bs as = true) : as = bs := by
  induction as generalizing bs with
  | nil =>
    cases bs with
    | nil => rfl
    | cons b bs => simp [charListLe] at h2
  | cons a as ih =>
    cases bs with
    | nil => simp [charListLe] at h1
    | cons b bs =>
      rcases lt_trichotomy a b with h | h | h
      · simp [charListLe, h, asymm h] at h2
      · subst h
        simp only [charListLe, lt_irrefl, if_false] at h1 h2
        rw [ih bs h1 h2]
      · simp [charListLe, h, asymm h] at h1

theorem strLe_refl (a : String) : strLe a a = true :=
  charListLe_refl a.data

theorem string_data_inj {a b : String} (h : a.data = b.data) : a = b := by
  cases a; cases b; exact congrArg String.mk h

theorem strLe_total (a b : String) : strLe a b = true ∨ strLe b a = true :=
  charListLe_total a.data b.data

theorem strLe_antisymm {a b : String} (h1 : strLe a b = true)
    (h2 : strLe b a = true) : a = b :=
  string_data_inj (charListLe_antisymm a.data b.data h1 h2)

theorem sortPair_comm {a b : String} (h : a ≠ b) : sortPair a b = sortPair b a := by
  unfold sortPair
  rcases h1 : strLe a b with _ | _ <;> rcases h2 : strLe b a with _ | _ <;> simp
  · rcases strLe_total a b with h' | h' <;> simp_all
  · exact absurd (strLe_antisymm h1 h2) h

theorem sortPair_self (a : String) : sortPair a a = [a, a] := by
  simp [sortPair, strLe_refl]

/-! ## Claim C1 -/

/-- Claim C1: for distinct participant ids the derived canonical conversation
id is symmetric, and the aggregator (`convKey`), the live-update handler
(`realtimeExpectedId`) and `createConversation` all build ids by this same
derivation. -/
theorem c1_conversation_id_symmetric :
    (∀ a b : String, a ≠ b → deriveConversationId a b = deriveConversationId b a) ∧
    (∀ (up : UserSummary) (m : Message),
      "conv_" ++ convKey up m = deriveConversationId up.id (otherUser up m).id) ∧
    (∀ (up : UserSummary) (m : Message),
      realtimeExpectedId up m = deriveConversationId up.id m.sender_id) ∧
    (∀ (up u' : UserSummary) (f : String → Except StoreError UserSummary)
        (cs : List Conversation) (now : Nat) (otherUserId : String),
      f otherUserId = .ok u' →
      ∃ cs', createConversation (some up) f cs now otherUserId =
        .ok (deriveConversationId up.id otherUserId, cs')) := by
  refine ⟨fun a b h => ?_, fun up m => rfl, fun up m => rfl,
    fun up u' f cs now otherUserId hf => ?_⟩
  · unfold deriveConversationId
    rw [sortPair_comm h]
  · simp only [createConversation, hf, deriveConversationId]
    split <;> exact ⟨_, rfl⟩

/-- Witness for C1 at concrete inputs. -/
theorem c1_witness :
    deriveConversationId "A" "B" = deriveConversationId "B" "A" ∧
    ∃ cs', createConversation (some ⟨"A", "client"⟩)
        (fun _ => .ok ⟨"B", "therapist"⟩) [] 0 "B" =
      .ok (deriveConversationId "A" "B", cs') :=
  ⟨c1_conversation_id_symmetric.1 "A" "B" (by decide),
   c1_conversation_id_symmetric.2.2.2 ⟨"A", "client"⟩ ⟨"B", "therapist"⟩
     (fun _ => .ok ⟨"B", "therapist"⟩) [] 0 "B" rfl⟩

/-! ## Claim C4 -/

/-- Claim C4 counterexample: `createConversation` called with `otherUserId`
equal to the caller's own id does not fail with `InvalidParticipants`; it
returns the id `conv_A_A` and installs a provisional self-conversation. -/
theorem c4_counterexample :
    createConversation (some ⟨"A", "client"⟩) (fun _ => .ok ⟨"A", "client"⟩) [] 0 "A" =
      .ok ("conv_A_A",
        [{ id := "conv_A_A", therapist_id := "A", client_id := "A", is_active := true,
           last_message_at := 0, last_message := none, unread_count := 0,
           messages := [] }]) ∧
    createConversation (some ⟨"A", "client"⟩) (fun _ => .ok ⟨"A", "client"⟩) [] 0 "A" ≠
      .error .invalidParticipants := by
  constructor
  · decide
  · decide

/-- Claim C4 amended: deriving a conversation id from the pair `(A, A)` does
not fail — `createConversation` performs no equal-participants check, and
(when authenticated and the user fetch succeeds) returns the id
`conv_<A>_<A>`. -/
theorem c4_self_conversation_returns_id (up u' : UserSummary)
    (f : String → Except StoreError UserSummary) (cs : List Conversation)
    (now : Nat) (hf : f up.id = .ok u') :
    deriveConversationId up.id up.id = "conv_" ++ up.id ++ "_" ++ up.id ∧
    ∃ cs', createConversation (some up) f cs now up.id =
      .ok (deriveConversationId up.id up.id, cs') := by
  constructor
  · simp [deriveConversationId, sortPair_self, joinUnderscore, String.append_assoc]
  · simp only [createConversation, hf, deriveConversationId]
    split <;> exact ⟨_, rfl⟩

/-- Witness for the amended C4 at concrete inputs. -/
theorem c4_witness :
    deriveConversationId "B" "B" = "conv_" ++ "B" ++ "_" ++ "B" ∧
    ∃ cs', createConversation (some ⟨"B", "client"⟩)
        (fun _ => .ok ⟨"B", "client"⟩) [] 3 "B" =
      .ok (deriveConversationId "B" "B", cs') :=
  c4_self_conversation_returns_id ⟨"B", "client"⟩ ⟨"B", "client"⟩
    (fun _ => .ok ⟨"B", "client"⟩) [] 3 rfl

/-! ## Claim C6 -/

/-- Claim C6 counterexample: `sendMessage` with an all-whitespace body does
not fail with `InvalidMessage`; it persists the trimmed (empty) body and
appends the stored row to local state. -/
theorem c6_counterexample :
    sendMessage (some ⟨"C", "client"⟩)
      (some { id := "conv_C_T", therapist_id := "T", client_id := "C",
              is_active := true, last_message_at := 0, last_message := none,
              unread_count := 0, messages := [] })
      (fun r => .ok { id := "m1", sender_id := r.sender_id,
                      receiver_id := r.receiver_id, message := r.message,
                      read := false, created_at := 1,
                      sender := ⟨"C", "client"⟩, receiver := ⟨"T", "therapist"⟩ })
      [] "conv_C_T" "   " "text" =
      { persisted := some { sender_id := "C", receiver_id := "T", message := "" },
        messages := [{ id := "m1", sender_id := "C", receiver_id := "T",
                       message := "", read := false, created_at := 1,
                       sender := ⟨"C", "client"⟩, receiver := ⟨"T", "therapist"⟩ }],
        alerted := false } := by
  decide

/-- Claim C6 amended: `sendMessage` performs no body validation.  For any
body that trims to the empty string, with a user and active conversation
present and a successful insert, the empty row is persisted and the stored
message appended — no `InvalidMessage` failure, no no-op. -/
theorem c6_empty_message_persisted (up : UserSummary) (ac : Conversation)
    (f : InsertRow → Except StoreError Message) (msgs : List Message)
    (conversationId body messageType : String) (m' : Message)
    (hbody : jsTrim body = "")
    (hf : f { sender_id := up.id,
              receiver_id := if up.id = ac.therapist_id then ac.client_id
                             else ac.therapist_id,
              message := "" } = .ok m') :
    sendMessage (some up) (some ac) f msgs conversationId body messageType =
      { persisted := some { sender_id := up.id,
                            receiver_id := if up.id = ac.therapist_id then ac.client_id
                                           else ac.therapist_id,
                            message := "" },
        messages := msgs ++ [m'], alerted := false } := by
  simp only [sendMessage, hbody, hf]

/-- Witness for the amended C6 at concrete inputs. -/
theorem c6_witness :
    sendMessage (some ⟨"T", "therapist"⟩)
      (some { id := "conv_C_T", therapist_id := "T", client_id := "C",
              is_active := true, last_message_at := 0, last_message := none,
              unread_count := 0, messages := [] })
      (fun _ => .ok { id := "m2", sender_id := "T", receiver_id := "C",
                      message := "", read := false, created_at := 2,
                      sender := ⟨"T", "therapist"⟩, receiver := ⟨"C", "client"⟩ })
      [] "conv_C_T" "  " "text" =
      { persisted := some { sender_id := "T",
                            receiver_id := if ("T" : String) = "T" then "C" else "T",
                            message := "" },
        messages := [{ id := "m2", sender_id := "T", receiver_id := "C",
                       message := "", read := false, created_at := 2,
                       sender := ⟨"T", "therapist"⟩, receiver := ⟨"C", "client"⟩ }],
        alerted := false } :=
  c6_empty_message_persisted ⟨"T", "therapist"⟩ _ _ [] "conv_C_T" "  " "text" _
    (by decide) rfl

/-! ## Claim C7 -/

/-- Claim C7 counterexample: delivering the same INSERT event twice to the
handler for the open conversation leaves two copies of the message, not one —
the merge is a blind append, not append-if-absent. -/
theorem c7_counterexample :
    handleInsertEvent ⟨"U", "client"⟩
        (some { id := "conv_S_U", therapist_id := "S", client_id := "U",
                is_active := true, last_message_at := 0, last_message := none,
                unread_count := 0, messages := [] })
        (handleInsertEvent ⟨"U", "client"⟩
          (some { id := "conv_S_U", therapist_id := "S", client_id := "U",
                  is_active := true, last_message_at := 0, last_message := none,
                  unread_count := 0, messages := [] })
          []
          { id := "m7", sender_id := "S", receiver_id := "U", message := "hi",
            read := false, created_at := 1, sender := ⟨"S", "therapist"⟩,
            receiver := ⟨"U", "client"⟩ })
        { id := "m7", sender_id := "S", receiver_id := "U", message := "hi",
          read := false, created_at := 1, sender := ⟨"S", "therapist"⟩,
          receiver := ⟨"U", "client"⟩ } =
      [{ id := "m7", sender_id := "S", receiver_id := "U", message := "hi",
         read := false, created_at := 1, sender := ⟨"S", "therapist"⟩,
         receiver := ⟨"U", "client"⟩ },
       { id := "m7", sender_id := "S", receiver_id := "U", message := "hi",
         read := false, created_at := 1, sender := ⟨"S", "therapist"⟩,
         receiver := ⟨"U", "client"⟩ }] := by
  decide

/-- Claim C7 amended: the handler appends unconditionally, so delivering the
same INSERT event twice to the open conversation appends two copies — one per
delivery — of the message (counted by id). -/
theorem c7_duplicate_append (up : UserSummary) (ac : Conversation)
    (msgs : List Message) (m : Message)
    (h : ac.id = realtimeExpectedId up m) :
    handleInsertEvent up (some ac) (handleInsertEvent up (some ac) msgs m) m =
      msgs ++ [m, m] ∧
    (handleInsertEvent up (some ac) (handleInsertEvent up (some ac) msgs m) m).countP
        (fun x => decide (x.id = m.id)) =
      msgs.countP (fun x => decide (x.id = m.id)) + 2 := by
  simp [handleInsertEvent, h, List.countP_append, List.countP_cons]

/-- Witness for the amended C7 at concrete inputs. -/
theorem c7_witness :
    handleInsertEvent ⟨"U", "client"⟩
        (some { id := "conv_S_U", therapist_id := "S", client_id := "U",
                is_active := true, last_message_at := 0, last_message := none,
                unread_count := 0, messages := [] })
        (handleInsertEvent ⟨"U", "client"⟩
          (some { id := "conv_S_U", therapist_id := "S", client_id := "U",
                  is_active := true, last_message_at := 0, last_message := none,
                  unread_count := 0, messages := [] })
          []
          { id := "m8", sender_id := "S", receiver_id := "U", message := "yo",
            read := false, created_at := 2, sender := ⟨"S", "therapist"⟩,
            receiver := ⟨"U", "client"⟩ })
        { id := "m8", sender_id := "S", receiver_id := "U", message := "yo",
          read := false, created_at := 2, sender := ⟨"S", "therapist"⟩,
          receiver := ⟨"U", "client"⟩ } =
      [] ++ [{ id := "m8", sender_id := "S", receiver_id := "U", message := "yo",
               read := false, created_at := 2, sender := ⟨"S", "therapist"⟩,
               receiver := ⟨"U", "client"⟩ },
             { id := "m8", sender_id := "S", receiver_id := "U", message := "yo",
               read := false, created_at := 2, sender := ⟨"S", "therapist"⟩,
               receiver := ⟨"U", "client"⟩ }] :=
  (c7_duplicate_append ⟨"U", "client"⟩ _ []
    { id := "m8", sender_id := "S", receiver_id := "U", message := "yo",
      read := false, created_at := 2, sender := ⟨"S", "therapist"⟩,
      receiver := ⟨"U", "client"⟩ } (by decide)).1

/-! ## Claim C8 -/

/-- Claim C8: `markAsRead` is idempotent — with the store update succeeding,
the first call yields a list where the targeted message is read, a second
call resolves successfully and changes nothing, and every message is either
untouched (different id) or changed only in its `read` flag. -/
theorem c8_markAsRead_idempotent (messageId : String) (msgs : List Message) :
    ∃ l₁, markAsRead true messageId msgs = .ok l₁ ∧
      markAsRead true messageId l₁ = .ok l₁ ∧
      List.Forall₂ (fun m m' =>
        { m' with read := m.read } = m ∧
        (m.id = messageId → m'.read = true) ∧
        (m.id ≠ messageId → m' = m)) msgs l₁ := by
  refine ⟨msgs.map ((fun msg =>
      if msg.id = messageId then { msg with read := true } else msg : Message → Message)),
    ?_, ?_, ?_⟩
  · rfl
  · simp only [markAsRead, if_true, Except.ok.injEq, List.map_map]
    apply List.map_congr_left
    intro m _
    by_cases h : m.id = messageId <;> simp [Function.comp, h]
  · rw [List.forall₂_map_right_iff, List.forall₂_same]
    intro m _
    by_cases h : m.id = messageId
    · exact ⟨by rw [if_pos h], fun _ => by rw [if_pos h], fun hn => absurd h hn⟩
    · exact ⟨by rw [if_neg h], fun hh => absurd hh h, fun _ => if_neg h⟩

/-- Witness for C8 at concrete inputs. -/
theorem c8_witness :
    ∃ l₁, markAsRead true "m1"
        [{ id := "m1", sender_id := "S", receiver_id := "U", message := "a",
           read := false, created_at := 1, sender := ⟨"S", "therapist"⟩,
           receiver := ⟨"U", "client"⟩ },
         { id := "m2", sender_id := "U", receiver_id := "S", message := "b",
           read := false, created_at := 2, sender := ⟨"U", "client"⟩,
           receiver := ⟨"S", "therapist"⟩ }] = .ok l₁ ∧
      markAsRead true "m1" l₁ = .ok l₁ ∧
      List.Forall₂ (fun m m' =>
        { m' with read := m.read } = m ∧
        (m.id = "m1" → m'.read = true) ∧
        (m.id ≠ "m1" → m' = m))
        [{ id := "m1", sender_id := "S", receiver_id := "U", message := "a",
           read := false, created_at := 1, sender := ⟨"S", "therapist"⟩,
           receiver := ⟨"U", "client"⟩ },
         { id := "m2", sender_id := "U", receiver_id := "S", message := "b",
           read := false, created_at := 2, sender := ⟨"U", "client"⟩,
           receiver := ⟨"S", "therapist"⟩ }] l₁ :=
  c8_markAsRead_idempotent "m1" _

/-! ## Claim C9 -/

/-- Claim C9 counterexample: when the store query fails, `loadConversations`
resolves successfully (the previous list untouched) instead of surfacing a
`RetrievalFailed` error. -/
theorem c9_counterexample :
    loadConversations (some ⟨"U", "client"⟩) (.error (.network 7))
        [{ id := "conv_S_U", therapist_id := "S", client_id := "U",
           is_active := true, last_message_at := 5, last_message := none,
           unread_count := 0, messages := [] }] =
      .ok [{ id := "conv_S_U", therapist_id := "S", client_id := "U",
             is_active := true, last_message_at := 5, last_message := none,
             unread_count := 0, messages := [] }] ∧
    loadConversations (some ⟨"U", "client"⟩) (.error (.network 7))
        [{ id := "conv_S_U", therapist_id := "S", client_id := "U",
           is_active := true, last_message_at := 5, last_message := none,
           unread_count := 0, messages := [] }] ≠
      .error .retrievalFailed := by
  constructor
  · rfl
  · decide

/-- Claim C9 amended: a store failure is caught and only logged —
`loadConversations` resolves successfully with the previously loaded list
unchanged (the single query is not retried), rather than surfacing any
error to the caller. -/
theorem c9_error_swallowed (up : UserSummary) (e : StoreError)
    (prev : List Conversation) :
    loadConversations (some up) (.error e) prev = .ok prev :=
  rfl

/-- Witness for the amended C9 at concrete inputs. -/
theorem c9_witness :
    loadConversations (some ⟨"W", "therapist"⟩) (.error (.network 3)) [] =
      .ok [] :=
  c9_error_swallowed ⟨"W", "therapist"⟩ (.network 3) []

/-! ## Claim C10 -/

/-- Claim C10: `sendMessage` with no authenticated user or no active
conversation is a silent successful no-op (nothing persisted, local state
unchanged, no alert); the `conversationId` and `messageType` arguments are
never consulted; and when a send occurs the receiver is resolved from the
active conversation's therapist/client ids. -/
theorem c10_sendMessage_guard_and_receiver :
    (∀ oup oac f msgs cid cid' body mt mt',
      sendMessage oup oac f msgs cid body mt = sendMessage oup oac f msgs cid' body mt') ∧
    (∀ oac f msgs cid body mt,
      sendMessage none oac f msgs cid body mt =
        { persisted := none, messages := msgs, alerted := false }) ∧
    (∀ oup f msgs cid body mt,
      sendMessage oup none f msgs cid body mt =
        { persisted := none, messages := msgs, alerted := false }) ∧
    (∀ up ac f msgs cid body mt r,
      (sendMessage (some up) (some ac) f msgs cid body mt).persisted = some r →
      r.sender_id = up.id ∧
      r.receiver_id = (if up.id = ac.therapist_id then ac.client_id
                       else ac.therapist_id)) := by
  refine ⟨fun oup oac f msgs cid cid' body mt mt' => ?_,
    fun oac f msgs cid body mt => ?_, fun oup f msgs cid body mt => ?_,
    fun up ac f msgs cid body mt r h => ?_⟩
  · cases oup <;> cases oac <;> rfl
  · rfl
  · cases oup <;> rfl
  · revert h
    simp only [sendMessage]
    cases f { sender_id := up.id,
              receiver_id := if up.id = ac.therapist_id then ac.client_id
                             else ac.therapist_id,
              message := jsTrim body } with
    | error e => intro h; cases h
    | ok data =>
        intro h
        cases Option.some.inj h
        exact ⟨rfl, rfl⟩

/-- Witness for C10 at concrete inputs. -/
theorem c10_witness :
    sendMessage none
      (some { id := "conv_S_U", therapist_id := "S", client_id := "U",
              is_active := true, last_message_at := 0, last_message := none,
              unread_count := 0, messages := [] })
      (fun _ => .error (.network 1)) [] "cid" "hello" "text" =
      { persisted := none, messages := [], alerted := false } ∧
    (({ sender_id := "U", receiver_id := "S", message := "hey" } : InsertRow).sender_id = "U" ∧
      ({ sender_id := "U", receiver_id := "S", message := "hey" } : InsertRow).receiver_id =
        (if ("U" : String) = "S" then "U" else "S")) :=
  ⟨c10_sendMessage_guard_and_receiver.2.1 _ _ [] "cid" "hello" "text",
   c10_sendMessage_guard_and_receiver.2.2.2 ⟨"U", "client"⟩
     { id := "conv_S_U", therapist_id := "S", client_id := "U",
       is_active := true, last_message_at := 0, last_message := none,
       unread_count := 0, messages := [] }
     (fun r => .ok { id := "m9", sender_id := r.sender_id,
                     receiver_id := r.receiver_id, message := r.message,
                     read := false, created_at := 4, sender := ⟨"U", "client"⟩,
                     receiver := ⟨"S", "therapist"⟩ })
     [] "cid" "hey" "text" { sender_id := "U", receiver_id := "S", message := "hey" }
     (by decide)⟩

/-! ## Association-map lemmas for the grouping loop -/

theorem mapFind_modify_self (k : String) (f : Conversation → Conversation) :
    ∀ l : ConvMap, mapFind k (mapModify k f l) = (mapFind k l).map f := by
  intro l
  induction l with
  | nil => rfl
  | cons p rest ih =>
    obtain ⟨k', c⟩ := p
    by_cases h : k' = k
    · simp [mapFind, mapModify, h]
    · simp [mapFind, mapModify, h, ih]

theorem mapFind_modify_ne {k k' : String} (h : k' ≠ k)
    (f : Conversation → Conversation) :
    ∀ l : ConvMap, mapFind k (mapModify k' f l) = mapFind k l := by
  intro l
  have h' : k ≠ k' := Ne.symm h
  induction l with
  | nil => rfl
  | cons p rest ih =>
    obtain ⟨k'', c⟩ := p
    by_cases h2 : k'' = k'
    · subst h2
      simp [mapFind, mapModify, h]
    · by_cases h3 : k'' = k <;> simp [mapFind, mapModify, h2, h3, h', ih]

theorem mapFind_append_self {k : String} {l : ConvMap} (c : Conversation)
    (h : mapFind k l = none) : mapFind k (l ++ [(k, c)]) = some c := by
  induction l with
  | nil => simp [mapFind]
  | cons p rest ih =>
    obtain ⟨k', c'⟩ := p
    by_cases h2 : k' = k
    · simp [mapFind, h2] at h
    · simp only [mapFind, h2, if_false] at h
      simp [mapFind, h2, ih h]

theorem mapFind_append_ne {k k' : String} (h : k' ≠ k) (c : Conversation) :
    ∀ l : ConvMap, mapFind k (l ++ [(k', c)]) = mapFind k l := by
  intro l
  induction l with
  | nil => simp [mapFind, h]
  | cons p rest ih =>
    obtain ⟨k'', c'⟩ := p
    by_cases h2 : k'' = k <;> simp [mapFind, h2, ih]

theorem mapModify_keys (k : String) (f : Conversation → Conversation) :
    ∀ l : ConvMap, (mapModify k f l).map Prod.fst = l.map Prod.fst := by
  intro l
  induction l with
  | nil => rfl
  | cons p rest ih =>
    obtain ⟨k', c⟩ := p
    by_cases h : k' = k <;> simp [mapModify, h, ih]

theorem mapFind_eq_none_iff (k : String) :
    ∀ l : ConvMap, mapFind k l = none ↔ k ∉ l.map Prod.fst := by
  intro l
  induction l with
  | nil => simp [mapFind]
  | cons p rest ih =>
    obtain ⟨k', c⟩ := p
    by_cases h : k' = k
    · subst h
      simp [mapFind]
    · simp [mapFind, h, Ne.symm h, ih]

theorem mapFind_of_mem_nodup {l : ConvMap} (hnd : (l.map Prod.fst).Nodup)
    {p : String × Conversation} (hp : p ∈ l) : mapFind p.1 l = some p.2 := by
  induction l with
  | nil => cases hp
  | cons q rest ih =>
    obtain ⟨k', c⟩ := q
    simp only [List.map_cons, List.nodup_cons] at hnd
    rcases List.mem_cons.mp hp with h | h
    · subst h
      simp [mapFind]
    · have hk : k' ≠ p.1 := by
        intro he
        exact hnd.1 (he ▸ List.mem_map_of_mem Prod.fst h)
      simp [mapFind, hk, ih hnd.2 h]

/-! ## Properties of one loop-body mutation -/

theorem applyMessage_id (up : UserSummary) (m : Message) (c : Conversation) :
    (applyMessage up m c).id = c.id := by
  unfold applyMessage bumpUnread bumpLast pushMessage
  split <;> split <;> rfl

theorem applyMessage_unread (up : UserSummary) (m : Message) (c : Conversation) :
    (applyMessage up m c).unread_count =
      c.unread_count + (if m.receiver_id = up.id ∧ m.read = false then 1 else 0) := by
  unfold applyMessage bumpUnread bumpLast pushMessage
  split <;> split <;> simp

theorem applyMessage_last (up : UserSummary) (m : Message) (c : Conversation) :
    ((applyMessage up m c).last_message = c.last_message ∧
      (applyMessage up m c).last_message_at = c.last_message_at ∧
      m.created_at ≤ c.last_message_at) ∨
    ((applyMessage up m c).last_message = some m ∧
      (applyMessage up m c).last_message_at = m.created_at ∧
      c.last_message_at ≤ m.created_at) := by
  unfold applyMessage bumpUnread bumpLast pushMessage
  by_cases h : c.last_message_at < m.created_at
  · right
    rw [if_pos h]
    split <;> exact ⟨rfl, rfl, Nat.le_of_lt h⟩
  · left
    rw [if_neg h]
    split <;> exact ⟨rfl, rfl, Nat.le_of_not_lt h⟩

/-! ## The entry invariant through a group of same-key messages -/

theorem entryInv_apply {up : UserSummary} {k : String} {g : List Message}
    {c : Conversation} (m : Message) (h : EntryInv up k g c) :
    EntryInv up k (g ++ [m]) (applyMessage up m c) := by
  obtain ⟨hid, hu, ⟨lm, hlm, hlmg, hlmat⟩, hmax⟩ := h
  refine ⟨by rw [applyMessage_id, hid], ?_, ?_, ?_⟩
  · rw [applyMessage_unread, hu, List.countP_append]
    simp [List.countP_cons]
  · rcases applyMessage_last up m c with ⟨h1, h2, _⟩ | ⟨h1, h2, _⟩
    · exact ⟨lm, by rw [h1, hlm], List.mem_append_left _ hlmg, by rw [h2, hlmat]⟩
    · exact ⟨m, h1, List.mem_append_right _ (List.mem_singleton_self m), h2⟩
  · intro x hx
    rcases applyMessage_last up m c with ⟨_, h2, h3⟩ | ⟨_, h2, h3⟩ <;>
      rcases List.mem_append.mp hx with hx | hx
    · rw [h2]; exact hmax x hx
    · rw [h2]; cases List.mem_singleton.mp hx; exact h3
    · rw [h2]; exact le_trans (hmax x hx) h3
    · rw [h2]; cases List.mem_singleton.mp hx; exact le_refl _

theorem entryInv_base (up : UserSummary) (k : String) (m : Message) :
    EntryInv up k [m] (applyMessage up m (freshConversation up m k)) := by
  refine ⟨by rw [applyMessage_id]; rfl, ?_, ?_, ?_⟩
  · rw [applyMessage_unread]
    simp [freshConversation, List.countP_cons]
  · rcases applyMessage_last up m (freshConversation up m k) with
      ⟨h1, h2, _⟩ | ⟨h1, h2, _⟩
    · exact ⟨m, by rw [h1]; rfl, List.mem_singleton_self m, by rw [h2]; rfl⟩
    · exact ⟨m, h1, List.mem_singleton_self m, h2⟩
  · intro x hx
    cases List.mem_singleton.mp hx
    rcases applyMessage_last up m (freshConversation up m k) with
      ⟨_, h2, h3⟩ | ⟨_, h2, h3⟩
    · rw [h2]; exact h3
    · rw [h2]

theorem groupFold_extend (up : UserSummary) (k : String) :
    ∀ (rest : List Message) (g : List Message) (c : Conversation),
      EntryInv up k g c →
      ∃ c', rest.foldl (groupStep up k) (some c) = some c' ∧
        EntryInv up k (g ++ rest) c' := by
  intro rest
  induction rest with
  | nil => exact fun g c h => ⟨c, rfl, by rw [List.append_nil]; exact h⟩
  | cons m rest ih =>
    intro g c h
    have step : groupStep up k (some c) m = some (applyMessage up m c) := rfl
    rw [List.foldl_cons, step]
    obtain ⟨c', hfold, hinv⟩ := ih (g ++ [m]) (applyMessage up m c) (entryInv_apply m h)
    exact ⟨c', hfold, by rwa [List.append_assoc, List.singleton_append] at hinv⟩

theorem groupFold_of_ne_nil (up : UserSummary) (k : String) :
    ∀ g : List Message, g ≠ [] →
      ∃ c, g.foldl (groupStep up k) none = some c ∧ EntryInv up k g c := by
  intro g hg
  cases g with
  | nil => exact absurd rfl hg
  | cons m rest =>
    have step : groupStep up k none m =
        some (applyMessage up m (freshConversation up m k)) := rfl
    rw [List.foldl_cons, step]
    obtain ⟨c', hfold, hinv⟩ :=
      groupFold_extend up k rest [m] _ (entryInv_base up k m)
    exact ⟨c', hfold, by rwa [List.singleton_append] at hinv⟩

/-! ## Characterizing the whole grouping loop per key -/

theorem mapFind_step_self (up : UserSummary) (m : Message) (acc : ConvMap) :
    mapFind (convKey up m) (stepMessage up acc m) =
      groupStep up (convKey up m) (mapFind (convKey up m) acc) m := by
  simp only [stepMessage]
  by_cases hfind : mapFind (convKey up m) acc = none
  · rw [if_pos hfind, mapFind_modify_self, mapFind_append_self _ hfind, hfind]
    rfl
  · rw [if_neg hfind, mapFind_modify_self]
    cases hsome : mapFind (convKey up m) acc with
    | none => exact absurd hsome hfind
    | some c => rfl

theorem mapFind_step_ne (up : UserSummary) (m : Message) (acc : ConvMap)
    {k : String} (hk : convKey up m ≠ k) :
    mapFind k (stepMessage up acc m) = mapFind k acc := by
  simp only [stepMessage]
  by_cases hfind : mapFind (convKey up m) acc = none
  · rw [if_pos hfind, mapFind_modify_ne hk, mapFind_append_ne hk]
  · rw [if_neg hfind, mapFind_modify_ne hk]

theorem foldl_step_find (up : UserSummary) :
    ∀ (msgs : List Message) (acc : ConvMap) (k : String),
      mapFind k (msgs.foldl (stepMessage up) acc) =
        (msgs.filter fun m => decide (convKey up m = k)).foldl
          (groupStep up k) (mapFind k acc) := by
  intro msgs
  induction msgs with
  | nil => intro acc k; rfl
  | cons m rest ih =>
    intro acc k
    rw [List.foldl_cons, ih]
    by_cases hk : convKey up m = k
    · subst hk
      rw [mapFind_step_self, List.filter_cons_of_pos (by simp), List.foldl_cons]
    · rw [mapFind_step_ne up m acc hk, List.filter_cons_of_neg (by simpa using hk)]

/-! ## The key list stays duplicate-free -/

theorem stepMessage_keys_nodup (up : UserSummary) (m : Message) {acc : ConvMap}
    (h : (acc.map Prod.fst).Nodup) :
    ((stepMessage up acc m).map Prod.fst).Nodup := by
  simp only [stepMessage]
  by_cases hfind : mapFind (convKey up m) acc = none
  · rw [if_pos hfind, mapModify_keys]
    simp only [List.map_append, List.map_cons, List.map_nil]
    rw [List.nodup_append]
    refine ⟨h, List.nodup_singleton _, fun a ha hb => ?_⟩
    rw [List.mem_singleton] at hb
    subst hb
    exact (mapFind_eq_none_iff _ acc).mp hfind ha
  · rw [if_neg hfind, mapModify_keys]
    exact h

theorem aggregate_keys_nodup (up : UserSummary) :
    ∀ (msgs : List Message) (acc : ConvMap), (acc.map Prod.fst).Nodup →
      ((msgs.foldl (stepMessage up) acc).map Prod.fst).Nodup := by
  intro msgs
  induction msgs with
  | nil => exact fun acc h => h
  | cons m rest ih =>
      intro acc h
      rw [List.foldl_cons]
      exact ih _ (stepMessage_keys_nodup up m h)

/-! ## Every map entry satisfies the entry invariant -/

theorem aggregate_entry (up : UserSummary) (msgs : List Message)
    {p : String × Conversation} (hp : p ∈ aggregateConversations up msgs) :
    (msgs.filter fun m => decide (convKey up m = p.1)) ≠ [] ∧
    EntryInv up p.1 (msgs.filter fun m => decide (convKey up m = p.1)) p.2 := by
  have hnd : ((aggregateConversations up msgs).map Prod.fst).Nodup :=
    aggregate_keys_nodup up msgs [] (by simp)
  have hfind : mapFind p.1 (aggregateConversations up msgs) = some p.2 :=
    mapFind_of_mem_nodup hnd hp
  have hfind2 : (msgs.filter fun m => decide (convKey up m = p.1)).foldl
      (groupStep up p.1) none = some p.2 := by
    have hchar := foldl_step_find up msgs [] p.1
    rw [show mapFind p.1 ([] : ConvMap) = none from rfl] at hchar
    rw [← hchar]
    exact hfind
  cases hg : msgs.filter fun m => decide (convKey up m = p.1) with
  | nil =>
      rw [hg] at hfind2
      exact Option.noConfusion hfind2
  | cons m rest =>
      obtain ⟨c, hfold, hinv⟩ :=
        groupFold_of_ne_nil up p.1 (m :: rest) (List.cons_ne_nil m rest)
      rw [hg, hfold] at hfind2
      exact ⟨List.cons_ne_nil m rest, Option.some.inj hfind2 ▸ hinv⟩

/-! ## Unread counts sum across the map -/

theorem sum_modify_apply (up : UserSummary) (m : Message) :
    ∀ (l : ConvMap) (k : String) (c : Conversation), mapFind k l = some c →
      ((mapModify k (applyMessage up m) l).map fun p => p.2.unread_count).sum =
        ((l.map fun p => p.2.unread_count).sum +
          (if m.receiver_id = up.id ∧ m.read = false then 1 else 0)) := by
  intro l
  induction l with
  | nil => intro k c h; cases h
  | cons q rest ih =>
      intro k c h
      obtain ⟨k', c'⟩ := q
      by_cases h2 : k' = k
      · subst h2
        have hm : mapModify k' (applyMessage up m) ((k', c') :: rest) =
            (k', applyMessage up m c') :: rest := by simp [mapModify]
        rw [hm]
        simp only [List.map_cons, List.sum_cons, applyMessage_unread]
        omega
      · simp only [mapFind, if_neg h2] at h
        simp only [mapModify, if_neg h2, List.map_cons, List.sum_cons, ih k c h]
        omega

theorem step_sum (up : UserSummary) (m : Message) (acc : ConvMap) :
    ((stepMessage up acc m).map fun p => p.2.unread_count).sum =
      ((acc.map fun p => p.2.unread_count).sum +
        (if m.receiver_id = up.id ∧ m.read = false then 1 else 0)) := by
  simp only [stepMessage]
  by_cases hfind : mapFind (convKey up m) acc = none
  · rw [if_pos hfind]
    rw [sum_modify_apply up m _ _ _ (mapFind_append_self _ hfind)]
    simp [List.map_append, List.sum_append, freshConversation]
  · rw [if_neg hfind]
    cases hsome : mapFind (convKey up m) acc with
    | none => exact absurd hsome hfind
    | some c => rw [sum_modify_apply up m _ _ _ hsome]

theorem aggregate_sum (up : UserSummary) :
    ∀ (msgs : List Message) (acc : ConvMap),
      ((msgs.foldl (stepMessage up) acc).map fun p => p.2.unread_count).sum =
        ((acc.map fun p => p.2.unread_count).sum +
          msgs.countP fun m => decide (m.receiver_id = up.id ∧ m.read = false)) := by
  intro msgs
  induction msgs with
  | nil => intro acc; simp
  | cons m rest ih =>
      intro acc
      rw [List.foldl_cons, ih, step_sum, List.countP_cons]
      by_cases hc : m.receiver_id = up.id ∧ m.read = false <;> simp [hc] <;> omega

/-! ## The final sort -/

theorem insertDesc_mem (c : Conversation) :
    ∀ (l : List Conversation) (x : Conversation),
      x ∈ insertDesc c l ↔ x = c ∨ x ∈ l := by
  intro l
  induction l with
  | nil => intro x; simp [insertDesc]
  | cons d ds ih =>
      intro x
      simp only [insertDesc]
      split
      · simp only [List.mem_cons]
      · simp only [List.mem_cons, ih]
        tauto

theorem insertDesc_perm (c : Conversation) :
    ∀ l : List Conversation, (insertDesc c l).Perm (c :: l) := by
  intro l
  induction l with
  | nil => exact List.Perm.refl _
  | cons d ds ih =>
      simp only [insertDesc]
      split
      · exact List.Perm.refl _
      · exact (List.Perm.cons d ih).trans (List.Perm.swap c d ds)

theorem sortByLastDesc_perm : ∀ l : List Conversation, (sortByLastDesc l).Perm l := by
  intro l
  induction l with
  | nil => exact List.Perm.refl _
  | cons c cs ih => exact (insertDesc_perm c _).trans (List.Perm.cons c ih)

theorem insertDesc_pairwise (c : Conversation) :
    ∀ l : List Conversation,
      l.Pairwise (fun a b => b.last_message_at ≤ a.last_message_at) →
      (insertDesc c l).Pairwise (fun a b => b.last_message_at ≤ a.last_message_at) := by
  intro l
  induction l with
  | nil => intro _; simp [insertDesc]
  | cons d ds ih =>
      intro h
      rw [List.pairwise_cons] at h
      obtain ⟨hd, hds⟩ := h
      simp only [insertDesc]
      split
      · rename_i hlt
        rw [List.pairwise_cons]
        refine ⟨fun x hx => ?_, List.pairwise_cons.mpr ⟨hd, hds⟩⟩
        rcases List.mem_cons.mp hx with he | hx
        · subst he; exact Nat.le_of_lt hlt
        · exact le_trans (hd x hx) (Nat.le_of_lt hlt)
      · rename_i hnlt
        rw [List.pairwise_cons]
        refine ⟨fun x hx => ?_, ih hds⟩
        rcases (insertDesc_mem c ds x).mp hx with he | hx
        · subst he; exact Nat.le_of_not_lt hnlt
        · exact hd x hx

theorem sortByLastDesc_pairwise :
    ∀ l : List Conversation,
      (sortByLastDesc l).Pairwise (fun a b => b.last_message_at ≤ a.last_message_at) := by
  intro l
  induction l with
  | nil => simp [sortByLastDesc]
  | cons c cs ih => exact insertDesc_pairwise c _ ih

/-! ## String prefix cancellation -/

theorem string_data_append (a b : String) : (a ++ b).data = a.data ++ b.data := by
  cases a; cases b; rfl

theorem string_append_left_cancel {s a b : String} (h : s ++ a = s ++ b) : a = b := by
  have hd := congrArg String.data h
  rw [string_data_append, string_data_append] at hd
  exact string_data_inj (List.append_cancel_left hd)

/-! ## Claim C2 -/

/-- Claim C2: every conversation emitted by `loadConversations` has
`unread_count` equal to the number of fetched messages of its participant
pair (those whose derived conversation id is the conversation's id) that are
addressed to the requesting user and unread; and the unread counts sum to
the total number of unread messages addressed to the user. -/
theorem c2_unread_counts_correct (up : UserSummary) (msgs : List Message)
    (prev : List Conversation) (out : List Conversation)
    (hout : loadConversations (some up) (.ok msgs) prev = .ok out) :
    (∀ c ∈ out, c.unread_count =
      (msgs.countP fun m =>
        decide ("conv_" ++ convKey up m = c.id ∧
          m.receiver_id = up.id ∧ m.read = false))) ∧
    (out.map Conversation.unread_count).sum =
      (msgs.countP fun m => decide (m.receiver_id = up.id ∧ m.read = false)) := by
  have hout' : out = loadConversationsPure up msgs := (Except.ok.inj hout).symm
  subst hout'
  constructor
  · intro c hc
    have hc' : c ∈ (aggregateConversations up msgs).map Prod.snd :=
      ((sortByLastDesc_perm _).mem_iff).mp hc
    obtain ⟨p, hp, hpc⟩ := List.mem_map.mp hc'
    obtain ⟨_, hid, hu, _, _⟩ := aggregate_entry up msgs hp
    subst hpc
    rw [hu, List.countP_filter]
    apply List.countP_congr
    intro m _
    simp only [Bool.and_eq_true, decide_eq_true_eq, hid]
    constructor
    · rintro ⟨⟨hrecv, hread⟩, hkey⟩
      exact ⟨by rw [hkey], hrecv, hread⟩
    · rintro ⟨hkey, hrecv, hread⟩
      exact ⟨⟨hrecv, hread⟩, string_append_left_cancel hkey⟩
  · have hperm :
        ((loadConversationsPure up msgs).map Conversation.unread_count).Perm
          (((aggregateConversations up msgs).map Prod.snd).map
            Conversation.unread_count) :=
      (sortByLastDesc_perm _).map _
    rw [hperm.sum_eq, List.map_map]
    have hsum := aggregate_sum up msgs []
    simpa [Function.comp] using hsum

/-- Witness for C2 at concrete inputs: a therapist with one unread and one
read message has total unread count 1. -/
theorem c2_witness :
    ((loadConversationsPure ⟨"T", "therapist"⟩
      [{ id := "m1", sender_id := "A", receiver_id := "T", message := "hi",
         read := false, created_at := 2, sender := ⟨"A", "client"⟩,
         receiver := ⟨"T", "therapist"⟩ },
       { id := "m2", sender_id := "T", receiver_id := "A", message := "yo",
         read := true, created_at := 1, sender := ⟨"T", "therapist"⟩,
         receiver := ⟨"A", "client"⟩ }]).map Conversation.unread_count).sum = 1 :=
  Eq.trans
    ((c2_unread_counts_correct ⟨"T", "therapist"⟩
      [{ id := "m1", sender_id := "A", receiver_id := "T", message := "hi",
         read := false, created_at := 2, sender := ⟨"A", "client"⟩,
         receiver := ⟨"T", "therapist"⟩ },
       { id := "m2", sender_id := "T", receiver_id := "A", message := "yo",
         read := true, created_at := 1, sender := ⟨"T", "therapist"⟩,
         receiver := ⟨"A", "client"⟩ }] [] _ rfl).2)
    (by decide)

/-! ## Claim C3 -/

/-- Claim C3: the list returned by `loadConversations` has pairwise-distinct
conversation ids, is sorted by `last_message_at` descending, and each
conversation's `last_message` is a fetched message of its pair whose
timestamp equals `last_message_at` and is maximal among the pair's fetched
messages. -/
theorem c3_nodup_last_message_sorted (up : UserSummary) (msgs : List Message)
    (prev : List Conversation) (out : List Conversation)
    (hout : loadConversations (some up) (.ok msgs) prev = .ok out) :
    (out.map Conversation.id).Nodup ∧
    out.Pairwise (fun a b => b.last_message_at ≤ a.last_message_at) ∧
    (∀ c ∈ out, ∃ lm, c.last_message = some lm ∧ lm ∈ msgs ∧
      "conv_" ++ convKey up lm = c.id ∧ c.last_message_at = lm.created_at ∧
      ∀ m ∈ msgs, "conv_" ++ convKey up m = c.id →
        m.created_at ≤ c.last_message_at) := by
  have hout' : out = loadConversationsPure up msgs := (Except.ok.inj hout).symm
  subst hout'
  refine ⟨?_, sortByLastDesc_pairwise _, ?_⟩
  · have h1 :
        ((loadConversationsPure up msgs).map Conversation.id).Perm
          (((aggregateConversations up msgs).map Prod.snd).map Conversation.id) :=
      (sortByLastDesc_perm _).map _
    rw [h1.nodup_iff, List.map_map]
    have hcg : (aggregateConversations up msgs).map (Conversation.id ∘ Prod.snd) =
        (aggregateConversations up msgs).map
          ((fun k => "conv_" ++ k) ∘ Prod.fst) := by
      apply List.map_congr_left
      intro p hp
      exact (aggregate_entry up msgs hp).2.1
    rw [hcg, ← List.map_map]
    exact List.Nodup.map (fun a b hab => string_append_left_cancel hab)
      (aggregate_keys_nodup up msgs [] (by simp))
  · intro c hc
    have hc' : c ∈ (aggregateConversations up msgs).map Prod.snd :=
      ((sortByLastDesc_perm _).mem_iff).mp hc
    obtain ⟨p, hp, hpc⟩ := List.mem_map.mp hc'
    obtain ⟨_, hid, _, ⟨lm, hlm, hlmg, hlmat⟩, hmax⟩ := aggregate_entry up msgs hp
    subst hpc
    refine ⟨lm, hlm, List.mem_of_mem_filter hlmg, ?_, hlmat, ?_⟩
    · have hkey := List.of_mem_filter hlmg
      rw [decide_eq_true_eq] at hkey
      rw [hid, hkey]
    · intro m hm hkey
      rw [hid] at hkey
      exact hmax m (List.mem_filter.mpr
        ⟨hm, by rw [decide_eq_true_eq]; exact string_append_left_cancel hkey⟩)

/-- Witness for C3 at concrete inputs: with messages in two pairs the output
ids are duplicate-free. -/
theorem c3_witness :
    ((loadConversationsPure ⟨"T", "therapist"⟩
      [{ id := "m1", sender_id := "A", receiver_id := "T", message := "hi",
         read := false, created_at := 2, sender := ⟨"A", "client"⟩,
         receiver := ⟨"T", "therapist"⟩ },
       { id := "m3", sender_id := "B", receiver_id := "T", message := "hey",
         read := false, created_at := 3, sender := ⟨"B", "client"⟩,
         receiver := ⟨"T", "therapist"⟩ }]).map Conversation.id).Nodup :=
  (c3_nodup_last_message_sorted ⟨"T", "therapist"⟩
    [{ id := "m1", sender_id := "A", receiver_id := "T", message := "hi",
       read := false, created_at := 2, sender := ⟨"A", "client"⟩,
       receiver := ⟨"T", "therapist"⟩ },
     { id := "m3", sender_id := "B", receiver_id := "T", message := "hey",
       read := false, created_at := 3, sender := ⟨"B", "client"⟩,
       receiver := ⟨"T", "therapist"⟩ }] [] _ rfl).1

/-! ## Claim C5 -/

theorem string_mk_data (s : String) : String.mk s.data = s := by
  cases s; rfl

theorem isPrefixOf_self_append : ∀ l r : List Char, l.isPrefixOf (l ++ r) = true := by
  intro l r
  induction l with
  | nil => cases r <;> rfl
  | cons a as ih => simp [List.isPrefixOf, ih]

theorem replaceFirstAux_append (p : Char) (ps rest : List Char) :
    replaceFirstAux (p :: ps) ((p :: ps) ++ rest) = rest := by
  show replaceFirstAux (p :: ps) (p :: (ps ++ rest)) = rest
  unfold replaceFirstAux
  have hpre : (p :: ps).isPrefixOf (p :: (ps ++ rest)) = true :=
    isPrefixOf_self_append (p :: ps) rest
  rw [if_pos hpre]
  exact List.drop_left (p :: ps) rest

theorem splitUnderscoreAux_no_sep :
    ∀ v : List Char, '_' ∉ v → splitUnderscoreAux v = (v, []) := by
  intro v
  induction v with
  | nil => intro _; rfl
  | cons c cs ih =>
      intro h
      have hc : ¬c = '_' := fun he => h (he ▸ List.mem_cons_self c cs)
      have hcs : '_' ∉ cs := fun hm => h (List.mem_cons_of_mem c hm)
      simp [splitUnderscoreAux, hc, ih hcs]

theorem splitUnderscoreAux_append (cs : List Char) :
    ∀ u : List Char, '_' ∉ u →
      splitUnderscoreAux (u ++ cs) =
        (u ++ (splitUnderscoreAux cs).1, (splitUnderscoreAux cs).2) := by
  intro u
  induction u with
  | nil => intro _; simp
  | cons c rest ih =>
      intro h
      have hc : ¬c = '_' := fun he => h (he ▸ List.mem_cons_self c rest)
      have hrest : '_' ∉ rest := fun hm => h (List.mem_cons_of_mem c hm)
      simp [splitUnderscoreAux, hc, ih hrest]

theorem splitUnderscoreAux_pair (x y : List Char) (hx : '_' ∉ x)
    (hy : '_' ∉ y) : splitUnderscoreAux (x ++ '_' :: y) = (x, [y]) := by
  rw [splitUnderscoreAux_append ('_' :: y) x hx]
  have h1 : splitUnderscoreAux ('_' :: y) =
      ([], (splitUnderscoreAux y).1 :: (splitUnderscoreAux y).2) := by
    simp [splitUnderscoreAux]
  rw [h1, splitUnderscoreAux_no_sep y hy]
  simp

theorem decompose_derive (x y : String) (hx : '_' ∉ x.data)
    (hy : '_' ∉ y.data) :
    loadMessagesUserIds ("conv_" ++ (x ++ "_" ++ y)) = .ok [x, y] := by
  have hdata : ("conv_" ++ (x ++ "_" ++ y)).data =
      "conv_".data ++ (x.data ++ '_' :: y.data) := by
    rw [string_data_append, string_data_append, string_data_append]
    congr 1
    rw [show ("_" : String).data = ['_'] from rfl, List.append_assoc]
    rfl
  have hrep : jsReplaceFirst ("conv_" ++ (x ++ "_" ++ y)) "conv_" =
      ⟨x.data ++ '_' :: y.data⟩ := by
    unfold jsReplaceFirst
    rw [hdata]
    rw [show ("conv_" : String).data = 'c' :: ['o', 'n', 'v', '_'] from rfl]
    rw [replaceFirstAux_append]
  have hsplit : jsSplitUnderscore ⟨x.data ++ '_' :: y.data⟩ = [x, y] := by
    unfold jsSplitUnderscore
    rw [show (String.mk (x.data ++ '_' :: y.data)).data =
        x.data ++ '_' :: y.data from rfl]
    rw [splitUnderscoreAux_pair x.data y.data hx hy]
    simp [string_mk_data]
  simp only [loadMessagesUserIds]
  rw [hrep, hsplit]
  rfl

/-- Claim C5 counterexample: with a participant id containing the separator
(`a_b` and `c`), the decomposition `loadMessages` performs yields three
fields, so the unordered pair is not recovered and the call fails with
`'Invalid conversation ID'`. -/
theorem c5_counterexample :
    jsSplitUnderscore (jsReplaceFirst (deriveConversationId "a_b" "c") "conv_") =
      ["a", "b", "c"] ∧
    loadMessagesUserIds (deriveConversationId "a_b" "c") =
      .error .invalidConversationId := by
  constructor
  · decide
  · decide

/-- Claim C5 amended: for distinct participant ids that do not contain the
separator `'_'`, decomposing the derived conversation id as `loadMessages`
does recovers exactly the original unordered pair. -/
theorem c5_roundtrip_no_separator (a b : String) (ha : '_' ∉ a.data)
    (hb : '_' ∉ b.data) (hab : a ≠ b) :
    loadMessagesUserIds (deriveConversationId a b) = .ok [a, b] ∨
    loadMessagesUserIds (deriveConversationId a b) = .ok [b, a] := by
  unfold deriveConversationId sortPair
  by_cases h : strLe a b = true
  · left
    rw [if_pos h]
    rw [show joinUnderscore [a, b] = a ++ "_" ++ b from rfl]
    exact decompose_derive a b ha hb
  · right
    rw [if_neg h]
    rw [show joinUnderscore [b, a] = b ++ "_" ++ a from rfl]
    exact decompose_derive b a hb ha

/-- Witness for the amended C5 at concrete inputs. -/
theorem c5_witness :
    loadMessagesUserIds (deriveConversationId "a" "b") = .ok ["a", "b"] ∨
    loadMessagesUserIds (deriveConversationId "a" "b") = .ok ["b", "a"] :=
  c5_roundtrip_no_separator "a" "b" (by decide) (by decide) (by decide)
